import Mathlib

/-!
Verification of the issue-collection core of `show_issues.py`.

The embedding models the two core functions `get_issues_from_repo` and
`get_org_issues`.  The HTTP transport (`requests.Session`) is modelled as a
pure map from request parameters to responses; besides the issue list each
modelled function also returns the trace of remote requests it issued, in
order, so that claims about which requests are made are statable.
-/

namespace ShowIssues

/-- An issue record as returned by the remote API.  The fields the core
inspects are `updated_at` (the sort key, modelled as a totally ordered
timestamp) and `pull_request` (presence of the `"pull_request"` key, which
marks an issue-shaped record that is really a pull request). The remaining
fields carry the payload the renderer uses. -/
structure Issue where
  number : Nat
  title : String
  state : String
  updated_at : Nat
  pull_request : Bool
deriving DecidableEq, Repr

/-- An entry of the organization repository list; the core reads `repo["name"]`. -/
structure RepoRecord where
  name : String
deriving DecidableEq, Repr

/-- Response to a per-repository issues request: a non-200 status, or a
decoded JSON page of issues. -/
inductive IssuesResp where
  | fail : IssuesResp
  | ok : List Issue → IssuesResp
deriving DecidableEq, Repr

/-- Response to the organization repository-list request. -/
inductive RepoListResp where
  | fail : RepoListResp
  | ok : List RepoRecord → RepoListResp
deriving DecidableEq, Repr

/-- A remote request issued by the core: either a page of issues for one
repository (with the query parameters that vary: state filter, page size,
page number) or the organization repository list. -/
inductive Request where
  | issues (owner repo state : String) (per_page : Int) (page : Nat) : Request
  | orgRepos (org : String) : Request
deriving DecidableEq, Repr

/-- The transport capability (`requests.Session`): a pure map from request
parameters to responses.  `issuesResp owner repo state per_page page` is the
response to the issues request, `orgReposResp org` to the repository list. -/
structure Session where
  issuesResp : String → String → String → Int → Nat → IssuesResp
  orgReposResp : String → RepoListResp

/-- Python list slicing `xs[:n]` with an `int` bound `n` (negative bounds
count from the end, clamped at zero). -/
def pySlice {α : Type} (n : Int) (xs : List α) : List α :=
  if 0 ≤ n then xs.take n.toNat else xs.take ((xs.length : Int) + n).toNat

/-- The `while len(all_issues) < max_issues` pagination loop of
`get_issues_from_repo` (`show_issues.py` lines 150–172).  `per_page` is
`min(max_issues, 100)` as set once before the loop.  Each iteration requests
the current page; a non-200 response stops the loop, an empty page stops it,
otherwise pull requests are filtered out, the survivors appended, and the
loop continues to the next page only when the filtered page is not shorter
than `per_page`.  The second component is the trace of requests issued. -/
def fetchLoop (session : Session) (owner repo state : String) (max_issues : Int)
    (page : Nat) (all_issues : List Issue) : List Issue × List Request :=
  if hguard : (all_issues.length : Int) < max_issues then
    match session.issuesResp owner repo state (min max_issues 100) page with
    | .fail => (all_issues, [Request.issues owner repo state (min max_issues 100) page])
    | .ok issues =>
      if issues = [] then
        (all_issues, [Request.issues owner repo state (min max_issues 100) page])
      else
        let filtered := issues.filter (fun i => !i.pull_request)
        if hshort : (filtered.length : Int) < min max_issues 100 then
          (all_issues ++ filtered,
           [Request.issues owner repo state (min max_issues 100) page])
        else
          let rest := fetchLoop session owner repo state max_issues (page + 1)
            (all_issues ++ filtered)
          (rest.1, Request.issues owner repo state (min max_issues 100) page :: rest.2)
  else (all_issues, [])
termination_by (max_issues - all_issues.length).toNat
decreasing_by
  unfold_let filtered at hshort ⊢
  simp only [List.length_append]
  omega

/-- `get_issues_from_repo` (`show_issues.py` lines 119–174): run the
pagination loop from page 1 with an empty accumulation, then truncate the
final accumulation with `all_issues[:max_issues]`. -/
def get_issues_from_repo (session : Session) (owner repo state : String)
    (max_issues : Int) : List Issue × List Request :=
  let r := fetchLoop session owner repo state max_issues 1 []
  (pySlice max_issues r.1, r.2)

/-- Stable insertion of one issue into a list sorted by `updated_at`
descending: `x` goes before the first strictly older element, after
every element at least as recent (so earlier-listed issues with equal
timestamps stay first, as Python's stable sort guarantees). -/
def insertByUpdatedDesc (x : Issue) : List Issue → List Issue
  | [] => [x]
  | y :: ys =>
    if y.updated_at ≤ x.updated_at then x :: y :: ys
    else y :: insertByUpdatedDesc x ys

/-- `all_issues.sort(key=lambda x: x["updated_at"], reverse=True)`
(`show_issues.py` line 220): Python's `list.sort` is a stable sort; it is
modelled as stable insertion sort, descending by `updated_at`. -/
def sortByUpdatedDesc : List Issue → List Issue
  | [] => []
  | x :: xs => insertByUpdatedDesc x (sortByUpdatedDesc xs)

/-- The `for repo in repos` loop of `get_org_issues` (`show_issues.py`
lines 211–217): fetch each repository's issues with the same state filter
and the same full cap, extend the accumulation, and break once the
accumulation has reached the cap.  The second component is the trace of
requests issued. -/
def orgLoop (session : Session) (org state : String) (max_issues : Int) :
    List RepoRecord → List Issue → List Issue × List Request
  | [], all_issues => (all_issues, [])
  | repo :: repos, all_issues =>
    let r := get_issues_from_repo session org repo.name state max_issues
    let all_issues' := all_issues ++ r.1
    if (all_issues'.length : Int) ≥ max_issues then (all_issues', r.2)
    else
      let rest := orgLoop session org state max_issues repos all_issues'
      (rest.1, r.2 ++ rest.2)

/-- `get_org_issues` (`show_issues.py` lines 177–222): request the
organization repository list (returning `[]` on a non-200 status), fetch
issues repository by repository up to the cap, sort the concatenation by
`updated_at` descending, and truncate with `all_issues[:max_issues]`. -/
def get_org_issues (session : Session) (org state : String)
    (max_issues : Int) : List Issue × List Request :=
  match session.orgReposResp org with
  | .fail => ([], [Request.orgRepos org])
  | .ok repos =>
    let r := orgLoop session org state max_issues repos []
    (pySlice max_issues (sortByUpdatedDesc r.1), Request.orgRepos org :: r.2)

/-- The non-pull-request content of one page, as a pure function of the
transport: empty for a failed request, otherwise the page with pull
requests filtered out. -/
def pageFiltered (session : Session) (owner repo state : String)
    (max_issues : Int) (page : Nat) : List Issue :=
  match session.issuesResp owner repo state (min max_issues 100) page with
  | .fail => []
  | .ok issues => issues.filter (fun i => !i.pull_request)

/-- The concatenated non-pull-request content of the `n` consecutive pages
`page, page+1, …, page+n-1`. -/
def pagesConcat (session : Session) (owner repo state : String)
    (max_issues : Int) (page : Nat) : Nat → List Issue
  | 0 => []
  | n + 1 =>
    pageFiltered session owner repo state max_issues page ++
      pagesConcat session owner repo state max_issues (page + 1) n

/-- The issue requests for the `n` consecutive pages `page, …, page+n-1`,
each with page size `min max_issues 100`. -/
def pageReqs (owner repo state : String) (max_issues : Int)
    (page : Nat) : Nat → List Request
  | 0 => []
  | n + 1 =>
    Request.issues owner repo state (min max_issues 100) page ::
      pageReqs owner repo state max_issues (page + 1) n

/-- The order in which the core keeps issues: `a` is at least as recently
updated as `b`.  A sequence sorted by update time descending is a sequence
pairwise related by `updatedGE`. -/
def updatedGE (a b : Issue) : Prop :=
  b.updated_at ≤ a.updated_at

instance : DecidableRel updatedGE := fun a b =>
  inferInstanceAs (Decidable (b.updated_at ≤ a.updated_at))

/-- Whether the pagination loop, upon processing `page`, moves on to the
next page: the request succeeded, the page is non-empty, and the filtered
page is not shorter than the requested page size.  Its negation is exactly
the disjunction of the loop's three per-page stopping conditions (remote
failure, empty page, short page). -/
def pageContinues (session : Session) (owner repo state : String)
    (max_issues : Int) (page : Nat) : Bool :=
  match session.issuesResp owner repo state (min max_issues 100) page with
  | .fail => false
  | .ok issues =>
    !(issues.isEmpty) &&
      decide ((min max_issues 100 : Int) ≤
        ((issues.filter (fun i => !i.pull_request)).length : Int))

/-- The issues produced by fetching each listed repository in order, each
with the same state filter and the same full cap. -/
def reposIssues (session : Session) (org state : String) (max_issues : Int)
    (repos : List RepoRecord) : List Issue :=
  (repos.map
    (fun r => (get_issues_from_repo session org r.name state max_issues).1)).flatten

/-- The requests issued by fetching each listed repository in order, each
with the same state filter and the same full cap. -/
def reposTrace (session : Session) (org state : String) (max_issues : Int)
    (repos : List RepoRecord) : List Request :=
  (repos.map
    (fun r => (get_issues_from_repo session org r.name state max_issues).2)).flatten

/-! ### Basic lemmas about the slicing and sorting primitives -/

theorem pySlice_sublist {α : Type} (n : Int) (xs : List α) :
    (pySlice n xs).Sublist xs := by
  unfold pySlice
  split <;> exact List.take_sublist _ _

theorem pySlice_nil {α : Type} (n : Int) : pySlice n ([] : List α) = [] := by
  unfold pySlice
  split <;> simp

theorem pySlice_length_le {α : Type} {n : Int} (h : 0 ≤ n) (xs : List α) :
    ((pySlice n xs).length : Int) ≤ n := by
  unfold pySlice
  rw [if_pos h]
  simp only [List.length_take]
  omega

theorem pySlice_eq_self {α : Type} {n : Int} {xs : List α}
    (h : (xs.length : Int) ≤ n) : pySlice n xs = xs := by
  unfold pySlice
  rw [if_pos (le_trans (Int.natCast_nonneg _) h)]
  exact List.take_of_length_le (by omega)

theorem mem_insertByUpdatedDesc (a x : Issue) :
    ∀ (l : List Issue), a ∈ insertByUpdatedDesc x l ↔ a = x ∨ a ∈ l
  | [] => by simp [insertByUpdatedDesc]
  | y :: ys => by
    simp only [insertByUpdatedDesc]
    split
    · simp [List.mem_cons]
    · simp only [List.mem_cons, mem_insertByUpdatedDesc a x ys]
      tauto

theorem mem_sortByUpdatedDesc (a : Issue) :
    ∀ (l : List Issue), a ∈ sortByUpdatedDesc l ↔ a ∈ l
  | [] => by simp [sortByUpdatedDesc]
  | x :: xs => by
    simp only [sortByUpdatedDesc, mem_insertByUpdatedDesc,
      mem_sortByUpdatedDesc a xs, List.mem_cons]

theorem pairwise_insertByUpdatedDesc {x : Issue} :
    ∀ {l : List Issue}, l.Pairwise updatedGE →
      (insertByUpdatedDesc x l).Pairwise updatedGE := by
  intro l
  induction l with
  | nil =>
    intro _
    simp [insertByUpdatedDesc]
  | cons y ys ih =>
    intro hp
    rw [List.pairwise_cons] at hp
    obtain ⟨hy, hys⟩ := hp
    simp only [insertByUpdatedDesc]
    split
    case isTrue hxy =>
      refine List.Pairwise.cons ?_ (List.Pairwise.cons hy hys)
      intro b hb
      rcases List.mem_cons.mp hb with rfl | hb
      · exact hxy
      · exact le_trans (hy b hb) hxy
    case isFalse hxy =>
      refine List.Pairwise.cons ?_ (ih hys)
      intro b hb
      rcases (mem_insertByUpdatedDesc b x ys).mp hb with rfl | hb
      · exact le_of_not_le hxy
      · exact hy b hb

theorem pairwise_sortByUpdatedDesc :
    ∀ (l : List Issue), (sortByUpdatedDesc l).Pairwise updatedGE
  | [] => List.Pairwise.nil
  | x :: xs => pairwise_insertByUpdatedDesc (pairwise_sortByUpdatedDesc xs)

/-! ### Unfolding lemmas for the pagination loop -/

section FetchLoop

variable (session : Session) (owner repo st : String) (max_issues : Int)

theorem fetchLoop_of_done {all_issues : List Issue} (page : Nat)
    (hg : ¬ ((all_issues.length : Int) < max_issues)) :
    fetchLoop session owner repo st max_issues page all_issues = (all_issues, []) := by
  rw [fetchLoop.eq_def]
  simp [hg]

theorem fetchLoop_of_fail {all_issues : List Issue} {page : Nat}
    (hg : (all_issues.length : Int) < max_issues)
    (h : session.issuesResp owner repo st (min max_issues 100) page = .fail) :
    fetchLoop session owner repo st max_issues page all_issues =
      (all_issues, [Request.issues owner repo st (min max_issues 100) page]) := by
  rw [fetchLoop.eq_def]
  simp [hg, h]

theorem fetchLoop_of_empty {all_issues : List Issue} {page : Nat}
    (hg : (all_issues.length : Int) < max_issues)
    (h : session.issuesResp owner repo st (min max_issues 100) page = .ok []) :
    fetchLoop session owner repo st max_issues page all_issues =
      (all_issues, [Request.issues owner repo st (min max_issues 100) page]) := by
  rw [fetchLoop.eq_def]
  simp [hg, h]

theorem fetchLoop_of_short {all_issues : List Issue} {page : Nat} {issues : List Issue}
    (hg : (all_issues.length : Int) < max_issues)
    (h : session.issuesResp owner repo st (min max_issues 100) page = .ok issues)
    (hne : issues ≠ [])
    (hshort : (((issues.filter (fun i => !i.pull_request)).length : Int) < min max_issues 100)) :
    fetchLoop session owner repo st max_issues page all_issues =
      (all_issues ++ issues.filter (fun i => !i.pull_request),
       [Request.issues owner repo st (min max_issues 100) page]) := by
  rw [fetchLoop.eq_def]
  simp [hg, h, hne, hshort]

theorem fetchLoop_of_cont {all_issues : List Issue} {page : Nat} {issues : List Issue}
    (hg : (all_issues.length : Int) < max_issues)
    (h : session.issuesResp owner repo st (min max_issues 100) page = .ok issues)
    (hne : issues ≠ [])
    (hlong : ¬ (((issues.filter (fun i => !i.pull_request)).length : Int) < min max_issues 100)) :
    fetchLoop session owner repo st max_issues page all_issues =
      ((fetchLoop session owner repo st max_issues (page + 1)
          (all_issues ++ issues.filter (fun i => !i.pull_request))).1,
       Request.issues owner repo st (min max_issues 100) page ::
         (fetchLoop session owner repo st max_issues (page + 1)
           (all_issues ++ issues.filter (fun i => !i.pull_request))).2) := by
  conv_lhs => rw [fetchLoop.eq_def]
  simp [hg, h, hne, hlong]

theorem mem_pageFiltered {page : Nat} {i : Issue}
    (h : i ∈ pageFiltered session owner repo st max_issues page) :
    ∃ l, session.issuesResp owner repo st (min max_issues 100) page = .ok l ∧
      i ∈ l ∧ i.pull_request = false := by
  unfold pageFiltered at h
  split at h
  · simp at h
  · next l heq =>
    refine ⟨l, heq, ?_, ?_⟩
    · exact List.mem_of_mem_filter h
    · have := List.of_mem_filter h
      simpa using this

/-- The pagination loop, started at any page with room left in the
accumulation, consumes some positive number `k` of consecutive pages: it
issues exactly the requests for those pages, appends exactly their
filtered content, every page before the last satisfied none of the
stopping conditions (and the cap was not yet reached after it), and at the
last page either a per-page stopping condition held or the accumulation
reached the cap. -/
theorem fetchLoop_pages :
    ∀ (page : Nat) (all_issues : List Issue),
      (all_issues.length : Int) < max_issues →
      ∃ k : Nat, 1 ≤ k ∧
        fetchLoop session owner repo st max_issues page all_issues =
          (all_issues ++ pagesConcat session owner repo st max_issues page k,
           pageReqs owner repo st max_issues page k) ∧
        (∀ j, j + 1 < k →
          pageContinues session owner repo st max_issues (page + j) = true ∧
          ((all_issues ++ pagesConcat session owner repo st max_issues page (j + 1)).length : Int)
            < max_issues) ∧
        (pageContinues session owner repo st max_issues (page + (k - 1)) = false ∨
          ((all_issues ++ pagesConcat session owner repo st max_issues page k).length : Int)
            ≥ max_issues) := by
  intro page all_issues
  induction page, all_issues using fetchLoop.induct session owner repo st max_issues with
  | case1 page all_issues hg hresp =>
    intro _
    refine ⟨1, le_refl 1, ?_, ?_, ?_⟩
    · rw [fetchLoop_of_fail session owner repo st max_issues hg hresp]
      simp [pagesConcat, pageReqs, pageFiltered, hresp]
    · intro j hj
      omega
    · left
      simp [pageContinues, hresp]
  | case2 page all_issues hg hresp =>
    intro _
    refine ⟨1, le_refl 1, ?_, ?_, ?_⟩
    · rw [fetchLoop_of_empty session owner repo st max_issues hg hresp]
      simp [pagesConcat, pageReqs, pageFiltered, hresp]
    · intro j hj
      omega
    · left
      simp [pageContinues, hresp]
  | case3 page all_issues hg issues hresp hne filtered hshort =>
    intro _
    refine ⟨1, le_refl 1, ?_, ?_, ?_⟩
    · rw [fetchLoop_of_short session owner repo st max_issues hg hresp hne hshort]
      simp [pagesConcat, pageReqs, pageFiltered, hresp]
    · intro j hj
      omega
    · left
      simp only [Nat.sub_self, Nat.add_zero, pageContinues, hresp,
        Bool.and_eq_false_imp, decide_eq_false_iff_not, not_le]
      intro _
      exact hshort
  | case4 page all_issues hg issues hresp hne filtered hlong ih =>
    intro _
    unfold_let filtered at hlong ih
    by_cases hg' :
        (((all_issues ++ issues.filter (fun i => !i.pull_request)).length : Int) < max_issues)
    · obtain ⟨k', hk1, heq, hcond, hlast⟩ := ih hg'
      refine ⟨k' + 1, by omega, ?_, ?_, ?_⟩
      · rw [fetchLoop_of_cont session owner repo st max_issues hg hresp hne hlong, heq]
        simp [pagesConcat, pageReqs, pageFiltered, hresp, List.append_assoc]
      · intro j hj
        cases j with
        | zero =>
          constructor
          · simp only [Nat.add_zero, pageContinues, hresp]
            simp [List.isEmpty_iff, hne]
            omega
          · simpa [pagesConcat, pageFiltered, hresp] using hg'
        | succ j' =>
          have hc := hcond j' (by omega)
          have harith : (page + 1) + j' = page + (j' + 1) := by omega
          rw [harith] at hc
          refine ⟨hc.1, ?_⟩
          have hrw : all_issues ++
              pagesConcat session owner repo st max_issues page (j' + 1 + 1) =
              (all_issues ++ issues.filter (fun i => !i.pull_request)) ++
                pagesConcat session owner repo st max_issues (page + 1) (j' + 1) := by
            simp [pagesConcat, pageFiltered, hresp, List.append_assoc]
          rw [hrw]
          exact hc.2
      · have harith : (page + 1) + (k' - 1) = page + (k' + 1 - 1) := by omega
        rw [harith] at hlast
        rcases hlast with h | h
        · exact Or.inl h
        · right
          have hrw : all_issues ++
              pagesConcat session owner repo st max_issues page (k' + 1) =
              (all_issues ++ issues.filter (fun i => !i.pull_request)) ++
                pagesConcat session owner repo st max_issues (page + 1) k' := by
            simp [pagesConcat, pageFiltered, hresp, List.append_assoc]
          rw [hrw]
          exact h
    · refine ⟨1, le_refl 1, ?_, ?_, ?_⟩
      · rw [fetchLoop_of_cont session owner repo st max_issues hg hresp hne hlong,
          fetchLoop_of_done session owner repo st max_issues (page + 1) hg']
        simp [pagesConcat, pageReqs, pageFiltered, hresp]
      · intro j hj
        omega
      · right
        have hrw : all_issues ++ pagesConcat session owner repo st max_issues page 1 =
            all_issues ++ issues.filter (fun i => !i.pull_request) := by
          simp [pagesConcat, pageFiltered, hresp]
        rw [hrw]
        omega
  | case5 page all_issues hg =>
    intro h
    exact absurd h hg

theorem pagesConcat_no_pr (n : Nat) :
    ∀ (page : Nat) (i : Issue),
      i ∈ pagesConcat session owner repo st max_issues page n → i.pull_request = false := by
  induction n with
  | zero =>
    intro page i h
    simp [pagesConcat] at h
  | succ n ih =>
    intro page i h
    simp only [pagesConcat] at h
    rcases List.mem_append.mp h with h | h
    · obtain ⟨l, -, -, hpr⟩ := mem_pageFiltered session owner repo st max_issues h
      exact hpr
    · exact ih (page + 1) i h

theorem get_issues_from_repo_no_pr {i : Issue}
    (h : i ∈ (get_issues_from_repo session owner repo st max_issues).1) :
    i.pull_request = false := by
  unfold get_issues_from_repo at h
  have h' := (pySlice_sublist max_issues _).mem h
  by_cases hg : ((0 : Int) < max_issues)
  · obtain ⟨k, _, heq, -, -⟩ :=
      fetchLoop_pages session owner repo st max_issues 1 [] (by simpa using hg)
    rw [heq] at h'
    simp only [List.nil_append] at h'
    exact pagesConcat_no_pr session owner repo st max_issues k 1 i h'
  · rw [fetchLoop_of_done session owner repo st max_issues 1 (by simpa using hg)] at h'
    simp at h'

end FetchLoop

section OrgLoop

variable (session : Session) (org st : String) (max_issues : Int)

theorem reposIssues_nil :
    reposIssues session org st max_issues [] = [] := by
  simp [reposIssues]

theorem reposIssues_cons (r : RepoRecord) (repos : List RepoRecord) :
    reposIssues session org st max_issues (r :: repos) =
      (get_issues_from_repo session org r.name st max_issues).1 ++
        reposIssues session org st max_issues repos := by
  simp [reposIssues]

theorem reposTrace_nil :
    reposTrace session org st max_issues [] = [] := by
  simp [reposTrace]

theorem reposTrace_cons (r : RepoRecord) (repos : List RepoRecord) :
    reposTrace session org st max_issues (r :: repos) =
      (get_issues_from_repo session org r.name st max_issues).2 ++
        reposTrace session org st max_issues repos := by
  simp [reposTrace]

/-- Characterization of the per-repository loop of `get_org_issues`: some
positive number `n` of listed repositories is processed, in listing order;
the loop's issue accumulation is exactly the concatenation of their full
fetch results (each fetched with the same state filter and the same full
cap) and its trace exactly the concatenation of their fetch traces; after
every processed repository but the last the accumulation was still below
the cap; and the loop ran out of repositories or ended with the
accumulation at or above the cap. -/
theorem orgLoop_spec :
    ∀ (repos : List RepoRecord) (all_issues : List Issue),
      ∃ n : Nat, n ≤ repos.length ∧
        orgLoop session org st max_issues repos all_issues =
          (all_issues ++ reposIssues session org st max_issues (repos.take n),
           reposTrace session org st max_issues (repos.take n)) ∧
        (repos ≠ [] → 1 ≤ n) ∧
        (∀ m, 0 < m → m < n →
          ((all_issues ++ reposIssues session org st max_issues (repos.take m)).length : Int)
            < max_issues) ∧
        (n = repos.length ∨
          ((all_issues ++ reposIssues session org st max_issues (repos.take n)).length : Int)
            ≥ max_issues)
  | [], all_issues => by
    refine ⟨0, by simp, ?_, ?_, ?_, Or.inl rfl⟩
    · simp [orgLoop, reposIssues_nil, reposTrace_nil]
    · intro h
      exact absurd rfl h
    · intro m hm hmn
      omega
  | r :: repos, all_issues => by
    by_cases hstop :
        (((all_issues ++ (get_issues_from_repo session org r.name st max_issues).1).length : Int)
          ≥ max_issues)
    · refine ⟨1, by simp, ?_, fun _ => le_refl 1, ?_, Or.inr ?_⟩
      · simp only [orgLoop, if_pos hstop, List.take_succ_cons, List.take_zero,
          reposIssues_cons, reposIssues_nil, reposTrace_cons, reposTrace_nil,
          List.append_nil]
      · intro m hm hmn
        omega
      · simpa [reposIssues_cons, reposIssues_nil] using hstop
    · obtain ⟨n', hn'len, heq, -, hcond, hlast⟩ :=
        orgLoop_spec repos
          (all_issues ++ (get_issues_from_repo session org r.name st max_issues).1)
      refine ⟨n' + 1, by simpa using hn'len, ?_, fun _ => by omega, ?_, ?_⟩
      · simp only [orgLoop, if_neg hstop, heq, List.take_succ_cons, reposIssues_cons,
          reposTrace_cons, List.append_assoc]
      · intro m hm hmn
        cases m with
        | zero => omega
        | succ m' =>
          rcases Nat.eq_zero_or_pos m' with rfl | hm'
          · simpa [reposIssues_cons, reposIssues_nil] using lt_of_not_ge hstop
          · have := hcond m' hm' (by omega)
            simpa [reposIssues_cons, List.append_assoc] using this
      · rcases hlast with h | h
        · left
          simp [h]
        · right
          simpa [reposIssues_cons, List.append_assoc] using h

theorem orgLoop_no_pr :
    ∀ (repos : List RepoRecord) (all_issues : List Issue),
      (∀ i ∈ all_issues, i.pull_request = false) →
      ∀ i ∈ (orgLoop session org st max_issues repos all_issues).1, i.pull_request = false
  | [], all_issues => by
    intro hacc i hi
    simp only [orgLoop] at hi
    exact hacc i hi
  | r :: repos, all_issues => by
    intro hacc i hi
    have hacc' : ∀ i ∈ all_issues ++ (get_issues_from_repo session org r.name st max_issues).1,
        i.pull_request = false := by
      intro j hj
      rcases List.mem_append.mp hj with hj | hj
      · exact hacc j hj
      · exact get_issues_from_repo_no_pr session org r.name st max_issues hj
    simp only [orgLoop] at hi
    split at hi
    · exact hacc' i hi
    · exact orgLoop_no_pr repos _ hacc' i hi

theorem get_org_issues_no_pr {i : Issue}
    (h : i ∈ (get_org_issues session org st max_issues).1) :
    i.pull_request = false := by
  unfold get_org_issues at h
  split at h
  · simp at h
  · next repos heq =>
    simp only at h
    have h' := (pySlice_sublist max_issues _).mem h
    rw [mem_sortByUpdatedDesc] at h'
    exact orgLoop_no_pr session org st max_issues repos [] (by simp) i h'

end OrgLoop

/-! ### Further supporting lemmas -/

theorem pageReqs_eq_range (owner repo st : String) (c : Int) :
    ∀ (n page : Nat), pageReqs owner repo st c page n =
      (List.range n).map (fun j => Request.issues owner repo st (min c 100) (page + j)) := by
  intro n
  induction n with
  | zero =>
    intro page
    simp [pageReqs]
  | succ n ih =>
    intro page
    simp only [pageReqs, List.range_succ_eq_map, List.map_cons, List.map_map, Nat.add_zero]
    rw [ih (page + 1)]
    have hfun : (fun j => Request.issues owner repo st (min c 100) (page + 1 + j)) =
        ((fun j => Request.issues owner repo st (min c 100) (page + j)) ∘ Nat.succ) := by
      funext j
      simp only [Function.comp_apply]
      congr 1
      omega
    rw [hfun]

theorem mem_pagesConcat (session : Session) (owner repo st : String) (c : Int) :
    ∀ (n page : Nat) (i : Issue), i ∈ pagesConcat session owner repo st c page n →
      ∃ j, j < n ∧ i ∈ pageFiltered session owner repo st c (page + j) := by
  intro n
  induction n with
  | zero =>
    intro page i h
    simp [pagesConcat] at h
  | succ n ih =>
    intro page i h
    simp only [pagesConcat] at h
    rcases List.mem_append.mp h with h | h
    · exact ⟨0, by omega, by simpa using h⟩
    · obtain ⟨j, hj, hmem⟩ := ih (page + 1) i h
      refine ⟨j + 1, by omega, ?_⟩
      have harith : page + (j + 1) = (page + 1) + j := by omega
      rw [harith]
      exact hmem

theorem pagesConcat_sorted (session : Session) (owner repo st : String) (c : Int)
    (hpage : ∀ (p : Nat) (l : List Issue),
      session.issuesResp owner repo st (min c 100) p = .ok l → l.Pairwise updatedGE)
    (hcross : ∀ (p q : Nat) (lp lq : List Issue), p < q →
      session.issuesResp owner repo st (min c 100) p = .ok lp →
      session.issuesResp owner repo st (min c 100) q = .ok lq →
      ∀ a ∈ lp, ∀ b ∈ lq, updatedGE a b) :
    ∀ (n page : Nat), (pagesConcat session owner repo st c page n).Pairwise updatedGE := by
  intro n
  induction n with
  | zero =>
    intro page
    simp [pagesConcat]
  | succ n ih =>
    intro page
    simp only [pagesConcat]
    rw [List.pairwise_append]
    refine ⟨?_, ih (page + 1), ?_⟩
    · unfold pageFiltered
      split
      · exact List.Pairwise.nil
      · next l heq =>
        exact List.Pairwise.sublist (List.filter_sublist l) (hpage page l heq)
    · intro a ha b hb
      obtain ⟨lp, hokp, halp, -⟩ := mem_pageFiltered session owner repo st c ha
      obtain ⟨j, -, hbpage⟩ := mem_pagesConcat session owner repo st c n (page + 1) b hb
      obtain ⟨lq, hokq, hblq, -⟩ := mem_pageFiltered session owner repo st c hbpage
      exact hcross page (page + 1 + j) lp lq (by omega) hokp hokq a halp b hblq

/-! ### The claims -/

/-- C1: For every cap `c ≥ 1` and every transport, `get_issues_from_repo`
returns at most `c` issues, and the cap is enforced by truncating the final
accumulated sequence (`all_issues[:max_issues]` applied after the whole
pagination loop), not per page. -/
theorem get_issues_from_repo_cap (session : Session) (owner repo st : String)
    (c : Int) (hc : 1 ≤ c) :
    (((get_issues_from_repo session owner repo st c).1.length : Int) ≤ c) ∧
    (get_issues_from_repo session owner repo st c).1 =
      pySlice c (fetchLoop session owner repo st c 1 []).1 := by
  constructor
  · exact pySlice_length_le (by omega) _
  · rfl

/-- C2: No issue returned by `get_issues_from_repo`, and hence none returned
by `get_org_issues` (which aggregates its results), carries the
pull-request back-reference field. -/
theorem returned_issues_no_pull_request (session : Session)
    (owner repo org st : String) (c : Int) :
    (∀ i ∈ (get_issues_from_repo session owner repo st c).1, i.pull_request = false) ∧
    (∀ i ∈ (get_org_issues session org st c).1, i.pull_request = false) :=
  ⟨fun _ hi => get_issues_from_repo_no_pr session owner repo st c hi,
   fun _ hi => get_org_issues_no_pr session org st c hi⟩

/-- C3: For every cap `c ≥ 1` and every transport (hence regardless of the
order in which the per-repository fetches return their issues), the
sequence returned by `get_org_issues` is sorted by last-update timestamp,
descending, and has length at most `c`. -/
theorem get_org_issues_sorted_and_capped (session : Session) (org st : String)
    (c : Int) (hc : 1 ≤ c) :
    (((get_org_issues session org st c).1.length : Int) ≤ c) ∧
    (get_org_issues session org st c).1.Pairwise updatedGE := by
  unfold get_org_issues
  split
  · constructor
    · simp
      omega
    · simp
  · constructor
    · exact pySlice_length_le (by omega) _
    · exact List.Pairwise.sublist (pySlice_sublist c _) (pairwise_sortByUpdatedDesc _)

/-- C4: If the organization repository-list request fails, `get_org_issues`
returns the empty sequence, and the only remote request it issued is that
repository-list request — no per-repository issue fetch happens. -/
theorem get_org_issues_repo_list_failure (session : Session) (org st : String)
    (c : Int) (h : session.orgReposResp org = .fail) :
    get_org_issues session org st c = ([], [Request.orgRepos org]) := by
  unfold get_org_issues
  simp [h]

/-- C5: If the issues request for a page fails mid-pagination (with the
accumulation from the prior successful pages still below the cap), the
loop returns exactly that accumulation — the failing page contributes
nothing, no duplicates are introduced, the only request of that iteration
is the failing one — and the final truncation keeps the accumulation
intact; being a total function, the model propagates no exception. -/
theorem fetchLoop_page_failure_returns_accumulated (session : Session)
    (owner repo st : String) (c : Int) (all_issues : List Issue) (page : Nat)
    (hroom : (all_issues.length : Int) < c)
    (hfail : session.issuesResp owner repo st (min c 100) page = .fail) :
    fetchLoop session owner repo st c page all_issues =
      (all_issues, [Request.issues owner repo st (min c 100) page]) ∧
    pySlice c all_issues = all_issues :=
  ⟨fetchLoop_of_fail session owner repo st c hroom hfail,
   pySlice_eq_self (le_of_lt hroom)⟩

/-- C6: When the repository list succeeds, `get_org_issues` invokes the
repository fetcher once per repository, in listing order, on a positive
number `n` of leading repositories, each invocation with the same state
filter `st` and the same full cap `c` (visible in `reposIssues` /
`reposTrace`, which apply `get_issues_from_repo` with exactly these
arguments to each repository); further fetches stop only once the running
concatenation has reached or exceeded the cap (below the cap after every
non-final processed repository, and at the end either the listing is
exhausted or the cap is reached), and the fetch during which the cap is
crossed is completed in full (the result contains the whole fetch result
of the `n`-th repository). -/
theorem get_org_issues_per_repo_invocations (session : Session) (org st : String)
    (c : Int) (repos : List RepoRecord)
    (hok : session.orgReposResp org = .ok repos) :
    ∃ n : Nat, n ≤ repos.length ∧
      get_org_issues session org st c =
        (pySlice c (sortByUpdatedDesc (reposIssues session org st c (repos.take n))),
         Request.orgRepos org :: reposTrace session org st c (repos.take n)) ∧
      (repos ≠ [] → 1 ≤ n) ∧
      (∀ m, 0 < m → m < n →
        ((reposIssues session org st c (repos.take m)).length : Int) < c) ∧
      (n = repos.length ∨
        ((reposIssues session org st c (repos.take n)).length : Int) ≥ c) := by
  obtain ⟨n, hn, heq, hne, hcond, hlast⟩ := orgLoop_spec session org st c repos []
  refine ⟨n, hn, ?_, hne, ?_, ?_⟩
  · unfold get_org_issues
    simp only [hok, heq, List.nil_append]
  · intro m hm hmn
    simpa using hcond m hm hmn
  · simpa using hlast

/-- C7: For every cap `c ≥ 1`, the pagination loop of
`get_issues_from_repo` issues requests for some positive number `k` of
pages, each of size `min c 100`, with consecutive page numbers starting
at 1; every page before the last satisfied no stopping condition (the page
succeeded, was non-empty, its filtered length was not below the page size,
and the accumulation was still below the cap after it), and at the last
page either a per-page stopping condition held (failure, empty page, or
short page — the negation of `pageContinues`) or the accumulation had
reached the cap. -/
theorem get_issues_from_repo_pagination (session : Session) (owner repo st : String)
    (c : Int) (hc : 1 ≤ c) :
    ∃ k : Nat, 1 ≤ k ∧
      (get_issues_from_repo session owner repo st c).2 = pageReqs owner repo st c 1 k ∧
      pageReqs owner repo st c 1 k =
        (List.range k).map (fun j => Request.issues owner repo st (min c 100) (1 + j)) ∧
      (get_issues_from_repo session owner repo st c).1 =
        pySlice c (pagesConcat session owner repo st c 1 k) ∧
      (∀ j, j + 1 < k →
        pageContinues session owner repo st c (1 + j) = true ∧
        ((pagesConcat session owner repo st c 1 (j + 1)).length : Int) < c) ∧
      (pageContinues session owner repo st c (1 + (k - 1)) = false ∨
        ((pagesConcat session owner repo st c 1 k).length : Int) ≥ c) := by
  obtain ⟨k, hk, heq, hcond, hlast⟩ :=
    fetchLoop_pages session owner repo st c 1 [] (by simp; omega)
  refine ⟨k, hk, ?_, pageReqs_eq_range owner repo st c k 1, ?_, ?_, ?_⟩
  · show (fetchLoop session owner repo st c 1 []).2 = _
    rw [heq]
  · show pySlice c (fetchLoop session owner repo st c 1 []).1 = _
    rw [heq]
    simp only [List.nil_append]
  · intro j hj
    have h := hcond j hj
    simpa using h
  · simpa using hlast

/-- C8: If every successful page is itself sorted by update time
descending and pages with larger page numbers only carry issues no more
recently updated than those of earlier pages (the remote source keeps a
global descending order across pages), then the sequence returned by
`get_issues_from_repo` is sorted by update time, descending. -/
theorem get_issues_from_repo_sorted (session : Session) (owner repo st : String)
    (c : Int)
    (hpage : ∀ (p : Nat) (l : List Issue),
      session.issuesResp owner repo st (min c 100) p = .ok l → l.Pairwise updatedGE)
    (hcross : ∀ (p q : Nat) (lp lq : List Issue), p < q →
      session.issuesResp owner repo st (min c 100) p = .ok lp →
      session.issuesResp owner repo st (min c 100) q = .ok lq →
      ∀ a ∈ lp, ∀ b ∈ lq, updatedGE a b) :
    (get_issues_from_repo session owner repo st c).1.Pairwise updatedGE := by
  by_cases hg : (0 : Int) < c
  · obtain ⟨k, -, heq, -, -⟩ :=
      fetchLoop_pages session owner repo st c 1 [] (by simpa using hg)
    show (pySlice c (fetchLoop session owner repo st c 1 []).1).Pairwise updatedGE
    rw [heq]
    simp only [List.nil_append]
    exact List.Pairwise.sublist (pySlice_sublist c _)
      (pagesConcat_sorted session owner repo st c hpage hcross k 1)
  · show (pySlice c (fetchLoop session owner repo st c 1 []).1).Pairwise updatedGE
    rw [fetchLoop_of_done session owner repo st c 1 (by simpa using hg)]
    simp [pySlice_nil]

/-- C10: For every cap `c ≤ 0`, `get_issues_from_repo` returns the empty
sequence and issues no remote request at all: the loop's entry guard
`len(all_issues) < max_issues` fails immediately, so the trace is empty. -/
theorem get_issues_from_repo_nonpositive_cap (session : Session)
    (owner repo st : String) (c : Int) (hc : c ≤ 0) :
    get_issues_from_repo session owner repo st c = ([], []) := by
  unfold get_issues_from_repo
  rw [fetchLoop_of_done session owner repo st c 1 (by simp; omega)]
  simp [pySlice_nil]

/-! ### Concrete transports for the scenario claim and the witnesses -/

/-- Issue of repository A, updated at time 100. -/
def issueA1 : Issue := ⟨1, "A1", "open", 100, false⟩

/-- Issue of repository A, updated at time 90. -/
def issueA2 : Issue := ⟨2, "A2", "open", 90, false⟩

/-- Issue of repository B, updated at time 95. -/
def issueB1 : Issue := ⟨1, "B1", "open", 95, false⟩

/-- Issue of repository B, updated at time 85. -/
def issueB2 : Issue := ⟨2, "B2", "open", 85, false⟩

/-- An organization with repositories `A` (2 issues) and `B` (2 issues),
each delivered on its first page. -/
def orgSession : Session where
  issuesResp := fun _ r _ _ p =>
    if r = "A" ∧ p = 1 then .ok [issueA1, issueA2]
    else if r = "B" ∧ p = 1 then .ok [issueB1, issueB2]
    else .ok []
  orgReposResp := fun _ => .ok [⟨"A"⟩, ⟨"B"⟩]

/-- A transport on which every page is empty. -/
def emptySession : Session where
  issuesResp := fun _ _ _ _ _ => .ok []
  orgReposResp := fun _ => .ok []

/-- A transport whose repository-list request fails. -/
def failListSession : Session where
  issuesResp := fun _ _ _ _ _ => .ok []
  orgReposResp := fun _ => .fail

/-- A transport on which every issues request fails. -/
def failPageSession : Session where
  issuesResp := fun _ _ _ _ _ => .fail
  orgReposResp := fun _ => .ok []

/-- A transport delivering one sorted page, then nothing. -/
def sortedSession : Session where
  issuesResp := fun _ _ _ _ p =>
    if p = 1 then .ok [issueA1, issueB1] else .ok []
  orgReposResp := fun _ => .ok []

unseal fetchLoop

/-- C9: On an organization whose repository list is exactly `A` then `B`,
where fetching `A` yields 2 issues and fetching `B` yields 2 issues,
`get_org_issues` with cap 3 returns exactly 3 issues, newest-updated
first, merged across both repositories. -/
theorem org_scenario_two_repos_cap_three :
    (get_org_issues orgSession "microfund" "open" 3).1 = [issueA1, issueB1, issueA2] ∧
    (get_org_issues orgSession "microfund" "open" 3).1.length = 3 ∧
    (get_org_issues orgSession "microfund" "open" 3).1.Pairwise updatedGE := by
  refine ⟨by decide, by decide, by decide⟩

/-! ### Witnesses -/

/-- Witness for C1 at cap 1 on the all-empty transport. -/
theorem get_issues_from_repo_cap_witness :
    (((get_issues_from_repo emptySession "o" "r" "open" 1).1.length : Int) ≤ 1) ∧
    (get_issues_from_repo emptySession "o" "r" "open" 1).1 =
      pySlice 1 (fetchLoop emptySession "o" "r" "open" 1 1 []).1 :=
  get_issues_from_repo_cap emptySession "o" "r" "open" 1 (by decide)

/-- Witness for C2: the returned issue `issueA1` indeed carries no
pull-request field, by the theorem applied to a concrete membership. -/
theorem returned_issues_no_pull_request_witness :
    issueA1.pull_request = false :=
  (returned_issues_no_pull_request orgSession "microfund" "A" "microfund" "open" 3).1
    issueA1 (by decide)

/-- Witness for C3 on the two-repository organization at cap 3. -/
theorem get_org_issues_sorted_and_capped_witness :
    (((get_org_issues orgSession "microfund" "open" 3).1.length : Int) ≤ 3) ∧
    (get_org_issues orgSession "microfund" "open" 3).1.Pairwise updatedGE :=
  get_org_issues_sorted_and_capped orgSession "microfund" "open" 3 (by decide)

/-- Witness for C4 on a transport whose repository list fails. -/
theorem get_org_issues_repo_list_failure_witness :
    get_org_issues failListSession "microfund" "open" 5 =
      ([], [Request.orgRepos "microfund"]) :=
  get_org_issues_repo_list_failure failListSession "microfund" "open" 5 rfl

/-- Witness for C5: a failing page-2 request returns the page-1
accumulation unchanged. -/
theorem fetchLoop_page_failure_returns_accumulated_witness :
    fetchLoop failPageSession "o" "r" "open" 5 2 [issueA1] =
      ([issueA1], [Request.issues "o" "r" "open" (min 5 100) 2]) ∧
    pySlice 5 [issueA1] = [issueA1] :=
  fetchLoop_page_failure_returns_accumulated failPageSession "o" "r" "open" 5
    [issueA1] 2 (by decide) rfl

/-- Witness for C6 on the two-repository organization at cap 3. -/
theorem get_org_issues_per_repo_invocations_witness :
    ∃ n : Nat, n ≤ ([⟨"A"⟩, ⟨"B"⟩] : List RepoRecord).length ∧
      get_org_issues orgSession "microfund" "open" 3 =
        (pySlice 3 (sortByUpdatedDesc
          (reposIssues orgSession "microfund" "open" 3
            (([⟨"A"⟩, ⟨"B"⟩] : List RepoRecord).take n))),
         Request.orgRepos "microfund" ::
           reposTrace orgSession "microfund" "open" 3
             (([⟨"A"⟩, ⟨"B"⟩] : List RepoRecord).take n)) ∧
      (([⟨"A"⟩, ⟨"B"⟩] : List RepoRecord) ≠ [] → 1 ≤ n) ∧
      (∀ m, 0 < m → m < n →
        ((reposIssues orgSession "microfund" "open" 3
          (([⟨"A"⟩, ⟨"B"⟩] : List RepoRecord).take m)).length : Int) < 3) ∧
      (n = ([⟨"A"⟩, ⟨"B"⟩] : List RepoRecord).length ∨
        ((reposIssues orgSession "microfund" "open" 3
          (([⟨"A"⟩, ⟨"B"⟩] : List RepoRecord).take n)).length : Int) ≥ 3) :=
  get_org_issues_per_repo_invocations orgSession "microfund" "open" 3
    [⟨"A"⟩, ⟨"B"⟩] rfl

/-- Witness for C7 at cap 1 on the all-empty transport. -/
theorem get_issues_from_repo_pagination_witness :
    ∃ k : Nat, 1 ≤ k ∧
      (get_issues_from_repo emptySession "o" "r" "open" 1).2 =
        pageReqs "o" "r" "open" 1 1 k ∧
      pageReqs "o" "r" "open" 1 1 k =
        (List.range k).map (fun j => Request.issues "o" "r" "open" (min 1 100) (1 + j)) ∧
      (get_issues_from_repo emptySession "o" "r" "open" 1).1 =
        pySlice 1 (pagesConcat emptySession "o" "r" "open" 1 1 k) ∧
      (∀ j, j + 1 < k →
        pageContinues emptySession "o" "r" "open" 1 (1 + j) = true ∧
        ((pagesConcat emptySession "o" "r" "open" 1 1 (j + 1)).length : Int) < 1) ∧
      (pageContinues emptySession "o" "r" "open" 1 (1 + (k - 1)) = false ∨
        ((pagesConcat emptySession "o" "r" "open" 1 1 k).length : Int) ≥ 1) :=
  get_issues_from_repo_pagination emptySession "o" "r" "open" 1 (by decide)

/-- Witness for C8 on a transport with one sorted page. -/
theorem get_issues_from_repo_sorted_witness :
    (get_issues_from_repo sortedSession "o" "r" "open" 5).1.Pairwise updatedGE := by
  refine get_issues_from_repo_sorted sortedSession "o" "r" "open" 5 ?_ ?_
  · intro p l h
    by_cases hp : p = 1
    · subst hp
      simp [sortedSession] at h
      subst h
      decide
    · simp [sortedSession, hp] at h
      subst h
      decide
  · intro p q lp lq hpq hp hq a ha b hb
    by_cases hq1 : q = 1
    · subst hq1
      have hp0 : p = 0 := by omega
      subst hp0
      simp [sortedSession] at hp
      subst hp
      simp at ha
    · simp [sortedSession, hq1] at hq
      subst hq
      simp at hb

/-- Witness for C10 at cap 0. -/
theorem get_issues_from_repo_nonpositive_cap_witness :
    get_issues_from_repo emptySession "o" "r" "open" 0 = ([], []) :=
  get_issues_from_repo_nonpositive_cap emptySession "o" "r" "open" 0 (by decide)

end ShowIssues
